import Mathlib

/-
Verification of the AgenticFlow review-and-approval workflow specification.

The repository's source tree contains only the dashboard client components
(ReplyReview, PostPreview, EmailSummaries, Settings) and documentation; the
backend components the specification describes (ContentStore,
ApprovalStateMachine, ReviewGateway, DispatchCoordinator) are not present in
the sources.  Those components are therefore modelled here directly from the
specification's words, as marked on each definition; the client components are
shallowly embedded from their JavaScript sources.
-/

namespace AgenticFlow

/-- Modelled from the spec: the `status` enumeration of a ContentItem
(section 3): `draft`, `pending_review`, `approved`, `dispatched`, `failed`,
`rejected`. -/
inductive Status
  | draft
  | pending_review
  | approved
  | dispatched
  | failed
  | rejected
deriving DecidableEq

/-- Modelled from the spec: the `kind` of a ContentItem (section 3): `reply`
or `post`. -/
inductive Kind
  | reply
  | post
deriving DecidableEq

/-- Modelled from the spec: a ContentItem (section 3) with its identifier,
kind, status, text body, kind-specific metadata, optimistic-concurrency
version, timestamps and Publisher attempt counter.  Timestamps are modelled
as naturals. -/
structure ContentItem where
  id : Nat
  kind : Kind
  status : Status
  content : String
  metadata : List (String × String)
  version : Nat
  createdAt : Nat
  updatedAt : Nat
  dispatchAttempts : Nat
deriving DecidableEq

/-- Modelled from the spec: the error taxonomy of section 7 that the core
operations can report (`PublishFailure` is represented by the `failed`
status, not by an operation error). -/
inductive StoreErr
  | NotFound
  | VersionConflict
  | IllegalState
deriving DecidableEq

/-- Modelled from the spec: the ContentStore is durable keyed storage of
content items (section 2); it is represented as the list of stored items. -/
def Store := List ContentItem

/-- Modelled from the spec: `get(id) -> item | NotFound` (section 4.1),
looking the item up by its identifier. -/
def get (s : List ContentItem) (id : Nat) : Option ContentItem :=
  s.find? (fun it => it.id == id)

/-- Replace the stored item carrying `newIt`'s identifier by `newIt`,
leaving every other stored item untouched.  This is the committed write that
a successful `put` performs. -/
def storeUpdate (s : List ContentItem) (newIt : ContentItem) : List ContentItem :=
  s.map (fun it => if it.id == newIt.id then newIt else it)

/-- Modelled from the spec: `put(item, expectedVersion) -> item' |
VersionConflict` (section 4.1).  `put` is the only mutation path; it
atomically checks `expectedVersion == stored.version`, else fails with
`VersionConflict` and writes nothing; on success the stored version is
incremented by exactly one (section 3 invariants). -/
def put (s : List ContentItem) (item : ContentItem) (expectedVersion : Nat) :
    Except StoreErr (List ContentItem) :=
  match get s item.id with
  | none => Except.error StoreErr.NotFound
  | some stored =>
    if stored.version = expectedVersion then
      Except.ok (storeUpdate s { item with version := stored.version + 1 })
    else
      Except.error StoreErr.VersionConflict

/-- Look the item up and hand it to a continuation; an unknown identifier is
`NotFound` (section 7).  Every ReviewGateway operation starts this way. -/
def withItem (s : List ContentItem) (id : Nat)
    (f : ContentItem → Except StoreErr (List ContentItem)) :
    Except StoreErr (List ContentItem) :=
  match get s id with
  | none => Except.error StoreErr.NotFound
  | some it => f it

/-- Modelled from the spec: edit eligibility of the ApprovalStateMachine
(sections 3 and 4.2): content is mutable only while the status is `draft` or
`pending_review`. -/
def editable (st : Status) : Bool :=
  st == Status.draft || st == Status.pending_review

/-- Modelled from the spec: `edit(id, expectedVersion, newContent)`
(section 4.3): fails `IllegalState` if the current status is not
`draft`/`pending_review`; fails `VersionConflict` if `expectedVersion`
mismatches; otherwise persists the new content, increments the version and
updates `updatedAt`, with no status change. -/
def edit (s : List ContentItem) (id expectedVersion : Nat) (newContent : String)
    (now : Nat) : Except StoreErr (List ContentItem) :=
  withItem s id fun it =>
    if editable it.status then
      put s { it with content := newContent, updatedAt := now } expectedVersion
    else
      Except.error StoreErr.IllegalState

/-- Modelled from the spec: `approve(id, expectedVersion)` (sections 4.3 and
8): the version check precedes the state check, so a stale `expectedVersion`
fails `VersionConflict`; then the transition is legal only from
`pending_review`, else `IllegalState`; on success the item moves to
`approved` and is persisted. -/
def approve (s : List ContentItem) (id expectedVersion : Nat) (now : Nat) :
    Except StoreErr (List ContentItem) :=
  withItem s id fun it =>
    if it.version ≠ expectedVersion then Except.error StoreErr.VersionConflict
    else if it.status = Status.pending_review then
      put s { it with status := Status.approved, updatedAt := now } expectedVersion
    else
      Except.error StoreErr.IllegalState

/-- Modelled from the spec: `reject(id, expectedVersion)` (section 4.3),
symmetric to approve: transitions `pending_review → rejected`; terminal, no
dispatch. -/
def reject (s : List ContentItem) (id expectedVersion : Nat) (now : Nat) :
    Except StoreErr (List ContentItem) :=
  withItem s id fun it =>
    if it.version ≠ expectedVersion then Except.error StoreErr.VersionConflict
    else if it.status = Status.pending_review then
      put s { it with status := Status.rejected, updatedAt := now } expectedVersion
    else
      Except.error StoreErr.IllegalState

/-- Modelled from the spec: promotion of a freshly generated item from
`draft` to `pending_review` when it is surfaced to a reviewer (section 3
lifecycle). -/
def promote (s : List ContentItem) (id : Nat) (now : Nat) :
    Except StoreErr (List ContentItem) :=
  withItem s id fun it =>
    if it.status = Status.draft then
      put s { it with status := Status.pending_review, updatedAt := now } it.version
    else
      Except.error StoreErr.IllegalState

/-- Modelled from the spec: the DispatchCoordinator's scan re-queues a
`failed` item for another dispatch attempt, which is legal only from
`failed` and only while `dispatchAttempts < maxAttempts` (section 4.2). -/
def retryDispatch (s : List ContentItem) (id maxAttempts : Nat) (now : Nat) :
    Except StoreErr (List ContentItem) :=
  withItem s id fun it =>
    if it.status = Status.failed ∧ it.dispatchAttempts < maxAttempts then
      put s { it with status := Status.pending_review, updatedAt := now } it.version
    else
      Except.error StoreErr.IllegalState

/-- Look the item up and hand it to a continuation returning a store and a
Publisher-invocation flag; a missing item leaves the store alone. -/
def withItemPair (s : List ContentItem) (id : Nat)
    (f : ContentItem → List ContentItem × Bool) : List ContentItem × Bool :=
  match get s id with
  | none => (s, false)
  | some it => f it

/-- The second half of a DispatchCoordinator work unit (section 4.4, steps 2
and 3): after the attempt counter was persisted, the Publisher outcome
`publishOk` decides the persisted transition: `dispatched` on success,
`failed` on failure. -/
def recordOutcome (s1 : List ContentItem) (id : Nat) (publishOk : Bool)
    (now : Nat) : List ContentItem × Bool :=
  match get s1 id with
  | none => (s1, true)
  | some it1 =>
    match put s1 { it1 with
        status := if publishOk then Status.dispatched else Status.failed, updatedAt := now } it1.version with
    | Except.ok s2 => (s2, true)
    | Except.error _ => (s1, true)

/-- Modelled from the spec: one unit of DispatchCoordinator work for a
scheduled item (section 4.4).  The coordinator deduplicates by `id` and
`status = approved`, so a signal for an item that has left `approved` is a
no-op without a Publisher call.  Otherwise it increments `dispatchAttempts`
and persists with a version check, invokes the Publisher (whose outcome is
`publishOk`), and records the outcome.  The returned flag says whether the
Publisher was invoked. -/
def dispatchOnce (s : List ContentItem) (id : Nat) (publishOk : Bool) (now : Nat) :
    List ContentItem × Bool :=
  withItemPair s id fun it =>
    if it.status = Status.approved then
      match put s { it with dispatchAttempts := it.dispatchAttempts + 1, updatedAt := now } it.version with
      | Except.error _ => (s, false)
      | Except.ok s1 => recordOutcome s1 id publishOk now
    else (s, false)

/-- Modelled from the spec: a sequence of dispatch signals for one item (the
approval signal and the periodic scan may both schedule work, section 5);
each signal carries the Publisher outcome it would observe.  Returns the
final store and the number of successful Publisher invocations. -/
def runSignals (s : List ContentItem) (id : Nat) (signals : List Bool) (now : Nat) :
    List ContentItem × Nat :=
  match signals with
  | [] => (s, 0)
  | ok :: rest =>
    let step := dispatchOnce s id ok now
    let restRun := runSignals step.1 id rest now
    (restRun.1, (if step.2 && ok then 1 else 0) + restRun.2)

/-- Modelled from the spec: the directed status-transition graph of section
4.2: `draft → pending_review → ` either `approved` or `rejected`;
`approved → ` either `dispatched` or `failed`; `failed → pending_review`
within the retry budget.  No other transition is permitted. -/
def allowedTransition (a b : Status) : Prop :=
  (a = Status.draft ∧ b = Status.pending_review) ∨
  (a = Status.pending_review ∧ (b = Status.approved ∨ b = Status.rejected)) ∨
  (a = Status.approved ∧ (b = Status.dispatched ∨ b = Status.failed)) ∨
  (a = Status.failed ∧ b = Status.pending_review)

/-- Modelled from the spec: the absorbing statuses of section 4.2:
`rejected`, `dispatched`, and terminal `failed` (retry budget exhausted). -/
def terminal (it : ContentItem) (maxAttempts : Nat) : Prop :=
  it.status = Status.rejected ∨ it.status = Status.dispatched ∨
    (it.status = Status.failed ∧ maxAttempts ≤ it.dispatchAttempts)

/-- An operation result that carries a new store, i.e. a successful
mutation. -/
def succeeds (r : Except StoreErr (List ContentItem)) : Prop :=
  ∃ s', r = Except.ok s'

/-! Pagination (ContentStore `list`, section 4.1): items are ordered by the
stable key `(createdAt, id)` ascending; a cursor is the key of the last item
already emitted. -/

/-- The stable ordering key of an item: `(createdAt, id)` (section 4.1). -/
abbrev Key := Nat × Nat

/-- The ordering key of an item. -/
def keyOf (it : ContentItem) : Key :=
  (it.createdAt, it.id)

/-- Strict lexicographic comparison of ordering keys. -/
def keyLtB (a b : Key) : Bool :=
  a.1 < b.1 || (a.1 == b.1 && a.2 < b.2)

/-- Non-strict lexicographic comparison of ordering keys. -/
def keyLeB (a b : Key) : Bool :=
  a.1 < b.1 || (a.1 == b.1 && a.2 ≤ b.2)

/-- Item order used by `list`: non-strict comparison of ordering keys. -/
def itemLe (a b : ContentItem) : Prop :=
  keyLeB (keyOf a) (keyOf b) = true

/-- Strict item order: strict comparison of ordering keys. -/
def itemLt (a b : ContentItem) : Prop :=
  keyLtB (keyOf a) (keyOf b) = true

instance : DecidableRel itemLe :=
  fun a b => inferInstanceAs (Decidable (keyLeB (keyOf a) (keyOf b) = true))

instance : DecidableRel itemLt :=
  fun a b => inferInstanceAs (Decidable (keyLtB (keyOf a) (keyOf b) = true))

instance : IsTotal ContentItem itemLe :=
  ⟨by
    intro a b
    simp only [itemLe, keyLeB, Bool.or_eq_true, Bool.and_eq_true,
      decide_eq_true_iff, beq_iff_eq]
    omega⟩

instance : IsTrans ContentItem itemLe :=
  ⟨by
    intro a b c
    simp only [itemLe, keyLeB, Bool.or_eq_true, Bool.and_eq_true,
      decide_eq_true_iff, beq_iff_eq]
    omega⟩

/-- Whether a key lies strictly beyond an optional cursor (`none` is the
start of the listing, before every key). -/
def cursorLtB (cursor : Option Key) (k : Key) : Bool :=
  match cursor with
  | none => true
  | some c => keyLtB c k

/-- Modelled from the spec: `list(cursor, limit) -> (items, nextCursor)`
(section 4.1): the store's items ordered by the stable key, restricted to
keys strictly beyond the cursor, truncated to `limit`; `nextCursor` is the
key of the last emitted item when more items remain, else null (`none`). -/
def afterCursor (s : List ContentItem) (cursor : Option Key) : List ContentItem :=
  (List.insertionSort itemLe s).filter (fun it => cursorLtB cursor (keyOf it))

/-- The items a single `list` call emits: the store ordered by the stable
key, restricted to keys strictly beyond the cursor, truncated to `limit`. -/
def pageItems (s : List ContentItem) (cursor : Option Key) (limit : Nat) :
    List ContentItem :=
  (afterCursor s cursor).take limit

/-- The `nextCursor` a single `list` call returns: the key of the last
emitted item when more items remain beyond this page, else null (`none`). -/
def nextCursor (s : List ContentItem) (cursor : Option Key) (limit : Nat) :
    Option Key :=
  if limit < (afterCursor s cursor).length then
    ((pageItems s cursor limit).getLast?).map keyOf
  else
    none

/-- Modelled from the spec: `list(cursor, limit) -> (items, nextCursor)`
(section 4.1): the emitted page together with the cursor from which the next
page continues. -/
def listPage (s : List ContentItem) (cursor : Option Key) (limit : Nat) :
    List ContentItem × Option Key :=
  (pageItems s cursor limit, nextCursor s cursor limit)

/-- Modelled from the spec: a client paginating from `cursor` and following
`nextCursor` until it is null (section 8), while the Generator concurrently
inserts batches of new items between page fetches: before each page after
the first, the next batch of `inserts` (if any) is appended to the store.
`fuel` bounds the number of pages fetched. -/
def paginateAll : Nat → List ContentItem → List (List ContentItem) →
    Option Key → Nat → List ContentItem
  | 0, _, _, _, _ => []
  | Nat.succ fuel, s, inserts, cursor, limit =>
    match nextCursor s cursor limit with
    | none => pageItems s cursor limit
    | some c =>
      pageItems s cursor limit ++
        paginateAll fuel (s ++ inserts.headD []) inserts.tail (some c) limit

/-- The number of items of `u` whose key lies strictly beyond the cursor:
the termination measure of a pagination traversal. -/
def countBeyond (u : List ContentItem) (cursor : Option Key) : Nat :=
  (u.filter (fun it => cursorLtB cursor (keyOf it))).length

end AgenticFlow

namespace ReplyReview

/-- A pending reply as held in the ReplyReview component's `replies` state
(`src/unnamed/part_002`): the fields the component reads are `id`,
`recipient`, `subject` and `content`. -/
structure Reply where
  id : Nat
  recipient : String
  subject : String
  content : String
deriving DecidableEq

/-- A JSON value of a request body field. -/
inductive Json
  | str (s : String)
  | num (n : Nat)
deriving DecidableEq

/-- The request body built by `handleSave` in ReplyReview
(`src/unnamed/part_002`, lines 41-47): the axios PUT body is the object
literal with the single field `content` holding `editedContent`. -/
def handleSaveBody (editedContent : String) : List (String × Json) :=
  [("content", Json.str editedContent)]

/-- The `replies` state update performed by `handleSave` on success
(`src/unnamed/part_002`, lines 49-51): map over the list, replacing the
reply whose `id` equals `replyId` by a copy with `content` set to
`editedContent`, leaving every other reply as is. -/
def handleSaveReplies (replies : List Reply) (replyId : Nat)
    (editedContent : String) : List Reply :=
  replies.map (fun reply =>
    if reply.id == replyId then { reply with content := editedContent } else reply)

/-- A concrete pending reply with identifier 1. -/
def replySampleA : Reply :=
  { id := 1, recipient := "ann", subject := "hello", content := "draft one" }

/-- A concrete pending reply with identifier 2. -/
def replySampleB : Reply :=
  { id := 2, recipient := "bob", subject := "news", content := "draft two" }

end ReplyReview

namespace PostPreview

/-- A JSON value of a request body field. -/
inductive Json
  | str (s : String)
  | num (n : Nat)
deriving DecidableEq

/-- The request body built by `handleSave` in PostPreview
(`src/AgenticFlow/frontend/src/components/PostPreview.js`, lines 43-49):
the axios PUT body is the object literal with the single field `content`
holding `editingContent`. -/
def handleSaveBody (editingContent : String) : List (String × Json) :=
  [("content", Json.str editingContent)]

/-- A rendered DOM node of the content pane: either markup injected raw via
`dangerouslySetInnerHTML`, or plain text. -/
inductive RenderedNode
  | rawHtml (html : String)
  | text (s : String)
deriving DecidableEq

/-- The content pane of PostPreview
(`src/AgenticFlow/frontend/src/components/PostPreview.js`, lines 157-166):
when `selectedPost.content` is truthy (non-empty), the component injects it
unmodified through `dangerouslySetInnerHTML`; otherwise it renders the
placeholder text. -/
def renderPostContent (content : String) : RenderedNode :=
  if content = "" then RenderedNode.text "No content available"
  else RenderedNode.rawHtml content

end PostPreview

namespace AgenticFlow

/-- A concrete pending-review reply item, version 0, key (0, 1). -/
def itemA : ContentItem :=
  { id := 1, kind := Kind.reply, status := Status.pending_review, content := "hello", metadata := [("recipient", "r")], version := 0, createdAt := 0, updatedAt := 0, dispatchAttempts := 0 }

/-- A concrete pending-review item with key (2, 2). -/
def itemB : ContentItem :=
  { itemA with id := 2, createdAt := 2, updatedAt := 2 }

/-- A concrete item with key (5, 5), inserted while pagination is running. -/
def itemC : ContentItem :=
  { itemA with id := 5, createdAt := 5, updatedAt := 5 }

/-- A concrete item that has reached `dispatched` at version 3. -/
def itemDispatched : ContentItem :=
  { itemA with
    id := 3
    status := Status.dispatched
    version := 3
    dispatchAttempts := 1 }

/-- A concrete item in `approved` at version 2. -/
def itemApproved : ContentItem :=
  { itemA with id := 4, status := Status.approved, version := 2 }

end AgenticFlow

namespace AgenticFlow

theorem get_id {s : List ContentItem} {id : Nat} {it : ContentItem}
    (h : get s id = some it) : it.id = id := by
  unfold get at h
  simpa using List.find?_some h

theorem get_storeUpdate_self {s : List ContentItem} {id : Nat} {it : ContentItem}
    (newIt : ContentItem) (h : get s id = some it) (hid : newIt.id = id) :
    get (storeUpdate s newIt) id = some newIt := by
  induction s with
  | nil => simp [get] at h
  | cons a l ih =>
    by_cases ha : a.id = id
    · simp [get, storeUpdate, ha.trans hid.symm, hid]
    · have ha2 : ¬ a.id = newIt.id := fun e => ha (e.trans hid)
      have h' : get l id = some it := by
        unfold get at h ⊢
        simpa [List.find?_cons, ha] using h
      have h2 := ih h'
      unfold get storeUpdate at h2 ⊢
      simpa [ha, ha2] using h2

theorem withItem_some {s : List ContentItem} {id : Nat} {it : ContentItem}
    (f : ContentItem → Except StoreErr (List ContentItem))
    (h : get s id = some it) : withItem s id f = f it := by
  unfold withItem
  rw [h]

theorem withItem_ok_inv {s : List ContentItem} {id : Nat}
    {f : ContentItem → Except StoreErr (List ContentItem)}
    {s' : List ContentItem} (h : withItem s id f = Except.ok s') :
    ∃ it, get s id = some it ∧ f it = Except.ok s' := by
  unfold withItem at h
  cases hg : get s id with
  | none => rw [hg] at h; cases h
  | some it =>
    rw [hg] at h
    exact ⟨it, rfl, h⟩

theorem put_ok' {s : List ContentItem} {id : Nat} {it : ContentItem} {ev : Nat}
    (h : get s id = some it) (item : ContentItem) (hid : item.id = id)
    (hv : it.version = ev) :
    put s item ev = Except.ok (storeUpdate s { item with version := ev + 1 }) := by
  unfold put
  rw [hid, h]
  simp [hv]

theorem put_conflict' {s : List ContentItem} {id : Nat} {it : ContentItem} {ev : Nat}
    (h : get s id = some it) (item : ContentItem) (hid : item.id = id)
    (hv : it.version ≠ ev) :
    put s item ev = Except.error StoreErr.VersionConflict := by
  unfold put
  rw [hid, h]
  simp [hv]

theorem put_ok_inv {s : List ContentItem} {item : ContentItem} {ev : Nat}
    {s' : List ContentItem} (h : put s item ev = Except.ok s') :
    ∃ it, get s item.id = some it ∧ it.version = ev ∧
      s' = storeUpdate s { item with version := ev + 1 } := by
  unfold put at h
  cases hg : get s item.id with
  | none => rw [hg] at h; cases h
  | some stored =>
    rw [hg] at h
    replace h :
        (if stored.version = ev then
          Except.ok (storeUpdate s { item with version := stored.version + 1 })
        else
          (Except.error StoreErr.VersionConflict :
            Except StoreErr (List ContentItem))) = Except.ok s' := h
    by_cases hv : stored.version = ev
    · refine ⟨stored, rfl, hv, ?_⟩
      rw [if_pos hv] at h
      injection h with h
      rw [← h, hv]
    · rw [if_neg hv] at h
      cases h

theorem get_at_own_id {s : List ContentItem} {id : Nat} {it : ContentItem}
    (h : get s id = some it) : get s it.id = some it := by
  rw [get_id h]
  exact h

theorem get_storeUpdate_self' {s : List ContentItem} {id : Nat} {it : ContentItem}
    (newIt : ContentItem) (h : get s id = some it) (hid : newIt.id = it.id) :
    get (storeUpdate s newIt) id = some newIt :=
  get_storeUpdate_self newIt h (hid.trans (get_id h))

theorem edit_ok_char {s : List ContentItem} {id ev : Nat} {nc : String} {now : Nat}
    {s' : List ContentItem} (h : edit s id ev nc now = Except.ok s') :
    ∃ it, get s id = some it ∧ editable it.status = true ∧ it.version = ev ∧
      s' = storeUpdate s { it with content := nc, updatedAt := now, version := ev + 1 } := by
  obtain ⟨it, hg, hf⟩ := withItem_ok_inv h
  by_cases he : editable it.status = true
  · rw [if_pos he] at hf
    by_cases hv : it.version = ev
    · rw [put_ok' (get_at_own_id hg)
        { it with content := nc, updatedAt := now } rfl hv] at hf
      injection hf with hf
      exact ⟨it, hg, he, hv, by rw [← hf]⟩
    · rw [put_conflict' (get_at_own_id hg)
        { it with content := nc, updatedAt := now } rfl hv] at hf
      cases hf
  · rw [if_neg he] at hf
    cases hf

theorem edit_ok_of {s : List ContentItem} {id : Nat} {it : ContentItem}
    (nc : String) (now : Nat) (h : get s id = some it)
    (he : editable it.status = true) :
    edit s id it.version nc now = Except.ok (storeUpdate s
      { it with content := nc, updatedAt := now, version := it.version + 1 }) := by
  unfold edit
  rw [withItem_some _ h, if_pos he, put_ok' (get_at_own_id h)
    { it with content := nc, updatedAt := now } rfl rfl]

theorem edit_illegal {s : List ContentItem} {id ev : Nat} {nc : String}
    {now : Nat} {it : ContentItem} (h : get s id = some it)
    (he : ¬ editable it.status = true) :
    edit s id ev nc now = Except.error StoreErr.IllegalState := by
  unfold edit
  rw [withItem_some _ h, if_neg he]

/-- C1: for every content item and every put/edit mutation, a successful
mutation increases the item's version by exactly 1, and a put whose
expectedVersion differs from the stored version fails with VersionConflict
and, as the operation returns no new store, leaves the stored item
completely unchanged (no partial write). -/
theorem put_edit_version_semantics (s : List ContentItem) :
    (∀ item ev it s', get s item.id = some it → put s item ev = Except.ok s' →
        (get s' item.id).map ContentItem.version = some (it.version + 1)) ∧
    (∀ item ev it, get s item.id = some it → ev ≠ it.version →
        put s item ev = Except.error StoreErr.VersionConflict) ∧
    (∀ id ev nc now it s', get s id = some it → edit s id ev nc now = Except.ok s' →
        (get s' id).map ContentItem.version = some (it.version + 1)) := by
  refine ⟨?_, ?_, ?_⟩
  · intro item ev it s' h hput
    obtain ⟨stored, hst, hv, hs⟩ := put_ok_inv hput
    rw [h] at hst
    injection hst with hst
    subst hst hs
    rw [get_storeUpdate_self { item with version := ev + 1 } h rfl]
    simp [hv]
  · intro item ev it h hv
    exact put_conflict' h item rfl (fun he => hv he.symm)
  · intro id ev nc now it s' h hed
    obtain ⟨it2, hg, he, hv, hs⟩ := edit_ok_char hed
    rw [h] at hg
    injection hg with hg
    subst hg hs
    rw [get_storeUpdate_self'
      { it with content := nc, updatedAt := now, version := ev + 1 } h rfl]
    simp [hv]

theorem approve_conflict {s : List ContentItem} {id ev now : Nat}
    {it : ContentItem} (h : get s id = some it) (hv : it.version ≠ ev) :
    approve s id ev now = Except.error StoreErr.VersionConflict := by
  unfold approve
  rw [withItem_some _ h, if_pos hv]

theorem approve_ok_of {s : List ContentItem} {id : Nat} {it : ContentItem}
    (now : Nat) (h : get s id = some it)
    (hst : it.status = Status.pending_review) :
    approve s id it.version now = Except.ok (storeUpdate s
      { it with status := Status.approved, updatedAt := now, version := it.version + 1 }) := by
  unfold approve
  rw [withItem_some _ h, if_neg (by simp), if_pos hst,
    put_ok' (get_at_own_id h)
      { it with status := Status.approved, updatedAt := now } rfl rfl]

theorem approve_illegal {s : List ContentItem} {id now : Nat}
    {it : ContentItem} (h : get s id = some it)
    (hst : it.status ≠ Status.pending_review) :
    approve s id it.version now = Except.error StoreErr.IllegalState := by
  unfold approve
  rw [withItem_some _ h, if_neg (by simp), if_neg hst]

theorem approve_ok_char {s : List ContentItem} {id ev now : Nat}
    {s' : List ContentItem} (h : approve s id ev now = Except.ok s') :
    ∃ it, get s id = some it ∧ it.status = Status.pending_review ∧
      it.version = ev ∧
      s' = storeUpdate s { it with status := Status.approved, updatedAt := now, version := ev + 1 } := by
  obtain ⟨it, hg, hf⟩ := withItem_ok_inv h
  by_cases hv : it.version = ev
  · rw [if_neg (fun hne => hne hv)] at hf
    by_cases hst : it.status = Status.pending_review
    · rw [if_pos hst, put_ok' (get_at_own_id hg)
        { it with status := Status.approved, updatedAt := now } rfl hv] at hf
      injection hf with hf
      exact ⟨it, hg, hst, hv, by rw [← hf]⟩
    · rw [if_neg hst] at hf
      cases hf
  · rw [if_pos hv] at hf
    cases hf

theorem reject_ok_of {s : List ContentItem} {id : Nat} {it : ContentItem}
    (now : Nat) (h : get s id = some it)
    (hst : it.status = Status.pending_review) :
    reject s id it.version now = Except.ok (storeUpdate s
      { it with status := Status.rejected, updatedAt := now, version := it.version + 1 }) := by
  unfold reject
  rw [withItem_some _ h, if_neg (by simp), if_pos hst,
    put_ok' (get_at_own_id h)
      { it with status := Status.rejected, updatedAt := now } rfl rfl]

theorem reject_ok_char {s : List ContentItem} {id ev now : Nat}
    {s' : List ContentItem} (h : reject s id ev now = Except.ok s') :
    ∃ it, get s id = some it ∧ it.status = Status.pending_review ∧
      it.version = ev ∧
      s' = storeUpdate s { it with status := Status.rejected, updatedAt := now, version := ev + 1 } := by
  obtain ⟨it, hg, hf⟩ := withItem_ok_inv h
  by_cases hv : it.version = ev
  · rw [if_neg (fun hne => hne hv)] at hf
    by_cases hst : it.status = Status.pending_review
    · rw [if_pos hst, put_ok' (get_at_own_id hg)
        { it with status := Status.rejected, updatedAt := now } rfl hv] at hf
      injection hf with hf
      exact ⟨it, hg, hst, hv, by rw [← hf]⟩
    · rw [if_neg hst] at hf
      cases hf
  · rw [if_pos hv] at hf
    cases hf

theorem reject_illegal {s : List ContentItem} {id now : Nat}
    {it : ContentItem} (h : get s id = some it)
    (hst : it.status ≠ Status.pending_review) :
    reject s id it.version now = Except.error StoreErr.IllegalState := by
  unfold reject
  rw [withItem_some _ h, if_neg (by simp), if_neg hst]

theorem promote_ok_char {s : List ContentItem} {id now : Nat}
    {s' : List ContentItem} (h : promote s id now = Except.ok s') :
    ∃ it, get s id = some it ∧ it.status = Status.draft ∧
      s' = storeUpdate s { it with status := Status.pending_review, updatedAt := now, version := it.version + 1 } := by
  obtain ⟨it, hg, hf⟩ := withItem_ok_inv h
  by_cases hst : it.status = Status.draft
  · rw [if_pos hst, put_ok' (get_at_own_id hg)
      { it with status := Status.pending_review, updatedAt := now } rfl rfl] at hf
    injection hf with hf
    exact ⟨it, hg, hst, by rw [← hf]⟩
  · rw [if_neg hst] at hf
    cases hf

theorem promote_illegal {s : List ContentItem} {id now : Nat}
    {it : ContentItem} (h : get s id = some it)
    (hst : it.status ≠ Status.draft) :
    promote s id now = Except.error StoreErr.IllegalState := by
  unfold promote
  rw [withItem_some _ h, if_neg hst]

theorem retry_ok_char {s : List ContentItem} {id maxA now : Nat}
    {s' : List ContentItem} (h : retryDispatch s id maxA now = Except.ok s') :
    ∃ it, get s id = some it ∧ it.status = Status.failed ∧
      it.dispatchAttempts < maxA ∧
      s' = storeUpdate s { it with status := Status.pending_review, updatedAt := now, version := it.version + 1 } := by
  obtain ⟨it, hg, hf⟩ := withItem_ok_inv h
  by_cases hc : it.status = Status.failed ∧ it.dispatchAttempts < maxA
  · rw [if_pos hc, put_ok' (get_at_own_id hg)
      { it with status := Status.pending_review, updatedAt := now } rfl rfl] at hf
    injection hf with hf
    exact ⟨it, hg, hc.1, hc.2, by rw [← hf]⟩
  · rw [if_neg hc] at hf
    cases hf

theorem retry_illegal {s : List ContentItem} {id maxA now : Nat}
    {it : ContentItem} (h : get s id = some it)
    (hc : ¬ (it.status = Status.failed ∧ it.dispatchAttempts < maxA)) :
    retryDispatch s id maxA now = Except.error StoreErr.IllegalState := by
  unfold retryDispatch
  rw [withItem_some _ h, if_neg hc]

/-- C6: the version check precedes the state check in approve: for every
stored item whose version differs from the supplied expectedVersion, approve
fails with VersionConflict (not IllegalState), whatever the item's current
status is — including statuses from which the transition would also be
illegal, such as dispatched. -/
theorem approve_version_check_first (s : List ContentItem) (id ev now : Nat)
    (it : ContentItem) (h : get s id = some it) (hv : it.version ≠ ev) :
    approve s id ev now = Except.error StoreErr.VersionConflict :=
  approve_conflict h hv

/-- Concrete instantiation of the C6 theorem, on the spec's section 8
scenario: an item that has reached dispatched at version 3; a second
approve with expectedVersion 1 fails VersionConflict, not IllegalState. -/
theorem approve_version_check_first_witness :
    approve [itemDispatched] 3 1 99 = Except.error StoreErr.VersionConflict :=
  approve_version_check_first [itemDispatched] 3 1 99 itemDispatched rfl
    (by decide)

/-- C4: with the item's current version supplied, approve succeeds if and
only if the item's status is pending_review; the first approve transitions
the item to approved, and a subsequent approve call (again carrying the
then-current version; a stale version instead fails VersionConflict, see the
C6 theorem) fails with IllegalState and, returning an error and no store,
does not change the item. -/
theorem approve_succeeds_iff_pending (s : List ContentItem) (id now now2 : Nat)
    (it : ContentItem) (h : get s id = some it) :
    (succeeds (approve s id it.version now) ↔
      it.status = Status.pending_review) ∧
    (∀ s', approve s id it.version now = Except.ok s' →
      get s' id = some { it with status := Status.approved, updatedAt := now, version := it.version + 1 } ∧
      approve s' id (it.version + 1) now2 = Except.error StoreErr.IllegalState) := by
  constructor
  · constructor
    · rintro ⟨s', hs⟩
      obtain ⟨it2, hg, hst, _, _⟩ := approve_ok_char hs
      rw [h] at hg
      injection hg with hg
      subst hg
      exact hst
    · intro hst
      exact ⟨_, approve_ok_of now h hst⟩
  · intro s' hs
    obtain ⟨it2, hg, hst, _, hs'⟩ := approve_ok_char hs
    rw [h] at hg
    injection hg with hg
    subst hg hs'
    have hg' : get (storeUpdate s { it with status := Status.approved, updatedAt := now, version := it.version + 1 }) id =
        some { it with status := Status.approved, updatedAt := now, version := it.version + 1 } :=
      get_storeUpdate_self' _ h rfl
    exact ⟨hg', approve_illegal hg' (by simp)⟩

/-- Concrete instantiation of the C4 theorem on a pending-review item at
version 0. -/
theorem approve_succeeds_iff_pending_witness :
    (succeeds (approve [itemA] 1 itemA.version 5) ↔
      itemA.status = Status.pending_review) ∧
    (∀ s', approve [itemA] 1 itemA.version 5 = Except.ok s' →
      get s' 1 = some { itemA with status := Status.approved, updatedAt := 5, version := itemA.version + 1 } ∧
      approve s' 1 (itemA.version + 1) 6 = Except.error StoreErr.IllegalState) :=
  approve_succeeds_iff_pending [itemA] 1 5 6 itemA rfl

/-- C5: with the item's current version supplied, edit succeeds if and only
if the item's status is draft or pending_review; an edit attempted while the
status is approved, dispatched, rejected or failed fails with IllegalState
for every supplied expectedVersion and, returning an error and no store,
leaves the item's content, version and timestamps unchanged. -/
theorem edit_succeeds_iff_editable (s : List ContentItem) (id now : Nat)
    (nc : String) (it : ContentItem) (h : get s id = some it) :
    (succeeds (edit s id it.version nc now) ↔
      (it.status = Status.draft ∨ it.status = Status.pending_review)) ∧
    ((it.status = Status.approved ∨ it.status = Status.dispatched ∨
        it.status = Status.rejected ∨ it.status = Status.failed) →
      ∀ ev, edit s id ev nc now = Except.error StoreErr.IllegalState) := by
  constructor
  · constructor
    · rintro ⟨s', hs⟩
      obtain ⟨it2, hg, he, _, _⟩ := edit_ok_char hs
      rw [h] at hg
      injection hg with hg
      subst hg
      revert he
      unfold editable
      cases it.status <;> simp
    · intro hst
      refine ⟨_, edit_ok_of nc now h ?_⟩
      unfold editable
      rcases hst with h1 | h1 <;> simp [h1]
  · intro hst ev
    apply edit_illegal h
    unfold editable
    rcases hst with h1 | h1 | h1 | h1 <;> simp [h1]

/-- Concrete instantiation of the C5 theorem on a dispatched item: the edit
is not eligible and fails IllegalState for a sample expectedVersion. -/
theorem edit_succeeds_iff_editable_witness :
    (succeeds (edit [itemDispatched] 3 itemDispatched.version "new" 7) ↔
      (itemDispatched.status = Status.draft ∨
        itemDispatched.status = Status.pending_review)) ∧
    ((itemDispatched.status = Status.approved ∨
        itemDispatched.status = Status.dispatched ∨
        itemDispatched.status = Status.rejected ∨
        itemDispatched.status = Status.failed) →
      ∀ ev, edit [itemDispatched] 3 ev "new" 7 =
        Except.error StoreErr.IllegalState) :=
  edit_succeeds_iff_editable [itemDispatched] 3 7 "new" itemDispatched rfl

/-- Concrete instantiation of the C1 theorem: a put against a stale version
is rejected with VersionConflict, and a successful put and edit each raise
the stored version from 0 to 1. -/
theorem put_edit_version_semantics_witness :
    put [itemA] { itemA with content := "x" } 5 =
      Except.error StoreErr.VersionConflict ∧
    (get (storeUpdate [itemA] { itemA with content := "x", version := 1 })
        itemA.id).map ContentItem.version = some (itemA.version + 1) ∧
    (get (storeUpdate [itemA]
        { itemA with content := "y", updatedAt := 9, version := 1 })
        1).map ContentItem.version = some (itemA.version + 1) :=
  ⟨(put_edit_version_semantics [itemA]).2.1 { itemA with content := "x" } 5 itemA
      rfl (by decide),
   (put_edit_version_semantics [itemA]).1 { itemA with content := "x" } 0 itemA
      (storeUpdate [itemA] { itemA with content := "x", version := 1 })
      rfl rfl,
   (put_edit_version_semantics [itemA]).2.2 1 0 "y" 9 itemA
      (storeUpdate [itemA] { itemA with content := "y", updatedAt := 9, version := 1 })
      rfl rfl⟩

theorem withItemPair_some {s : List ContentItem} {id : Nat} {it : ContentItem}
    (f : ContentItem → List ContentItem × Bool) (h : get s id = some it) :
    withItemPair s id f = f it := by
  unfold withItemPair
  rw [h]

theorem dispatchOnce_stuck {s : List ContentItem} {id : Nat} {it : ContentItem}
    {b : Bool} {now : Nat} (h : get s id = some it)
    (hst : it.status ≠ Status.approved) :
    dispatchOnce s id b now = (s, false) := by
  unfold dispatchOnce
  rw [withItemPair_some _ h, if_neg hst]

theorem dispatchOnce_missing {s : List ContentItem} {id : Nat} {b : Bool}
    {now : Nat} (h : get s id = none) :
    dispatchOnce s id b now = (s, false) := by
  unfold dispatchOnce withItemPair
  rw [h]

theorem recordOutcome_eq {s1 : List ContentItem} {id : Nat}
    {it1 : ContentItem} (b : Bool) (now : Nat) (h : get s1 id = some it1) :
    recordOutcome s1 id b now =
      (storeUpdate s1 { it1 with
        status := if b then Status.dispatched else Status.failed, updatedAt := now, version := it1.version + 1 }, true) := by
  simp only [recordOutcome, h]
  rw [put_ok' (get_at_own_id h)
    { it1 with status := if b then Status.dispatched else Status.failed, updatedAt := now } rfl rfl]

theorem dispatchOnce_approved {s : List ContentItem} {id : Nat}
    {it : ContentItem} (b : Bool) (now : Nat) (h : get s id = some it)
    (hst : it.status = Status.approved) :
    dispatchOnce s id b now =
      (storeUpdate
        (storeUpdate s { it with dispatchAttempts := it.dispatchAttempts + 1, updatedAt := now, version := it.version + 1 })
        { it with status := if b then Status.dispatched else Status.failed, dispatchAttempts := it.dispatchAttempts + 1, updatedAt := now, version := it.version + 2 }, true) := by
  unfold dispatchOnce
  rw [withItemPair_some _ h, if_pos hst]
  simp only [put_ok' (get_at_own_id h)
    { it with dispatchAttempts := it.dispatchAttempts + 1, updatedAt := now }
    rfl rfl]
  rw [recordOutcome_eq b now (get_storeUpdate_self'
    { it with dispatchAttempts := it.dispatchAttempts + 1, updatedAt := now, version := it.version + 1 } h rfl)]

theorem runSignals_stuck {s : List ContentItem} {id : Nat}
    {it : ContentItem} (sig : List Bool) (now : Nat) (h : get s id = some it)
    (hst : it.status ≠ Status.approved) :
    runSignals s id sig now = (s, 0) := by
  induction sig with
  | nil => rfl
  | cons b rest ih =>
    simp [runSignals, dispatchOnce_stuck h hst, ih]

theorem runSignals_le_one (s : List ContentItem) (id now : Nat)
    (sig : List Bool) : (runSignals s id sig now).2 ≤ 1 := by
  induction sig generalizing s with
  | nil => simp [runSignals]
  | cons b rest ih =>
    cases hg : get s id with
    | none =>
      simp only [runSignals, dispatchOnce_missing hg]
      simpa using ih s
    | some it =>
      by_cases hst : it.status = Status.approved
      · rw [runSignals, dispatchOnce_approved b now hg hst]
        have hg2 := get_storeUpdate_self'
          { it with status := if b then Status.dispatched else Status.failed, dispatchAttempts := it.dispatchAttempts + 1, updatedAt := now, version := it.version + 2 }
          (get_storeUpdate_self'
            { it with dispatchAttempts := it.dispatchAttempts + 1, updatedAt := now, version := it.version + 1 } hg rfl) rfl
        rw [runSignals_stuck rest now hg2 (by cases b <;> simp)]
        cases b <;> simp
      · simp only [runSignals, dispatchOnce_stuck hg hst]
        simpa using ih s

/-- C7: duplicate dispatch scheduling collapses to a single effective
dispatch: for an approved item, processing any nonempty sequence of
dispatch signals whose simulated Publisher outcomes are all success counts
exactly one successful Publisher invocation and leaves the item dispatched;
and for every signal sequence whatsoever at most one Publisher invocation
occurs, so the approved to dispatched transition happens at most once. -/
theorem dispatch_exactly_once (s : List ContentItem) (id now : Nat)
    (it : ContentItem) (signals : List Bool) (h : get s id = some it)
    (hst : it.status = Status.approved) (hne : signals ≠ [])
    (hall : ∀ b ∈ signals, b = true) :
    (runSignals s id signals now).2 = 1 ∧
    (get (runSignals s id signals now).1 id).map ContentItem.status =
      some Status.dispatched ∧
    (∀ sig2, (runSignals s id sig2 now).2 ≤ 1) := by
  cases signals with
  | nil => exact absurd rfl hne
  | cons b rest =>
    have hb : b = true := hall b (List.mem_cons_self b rest)
    subst hb
    have hd : dispatchOnce s id true now =
        (storeUpdate (storeUpdate s { it with dispatchAttempts := it.dispatchAttempts + 1, updatedAt := now, version := it.version + 1 }) { it with status := Status.dispatched, dispatchAttempts := it.dispatchAttempts + 1, updatedAt := now, version := it.version + 2 }, true) := by
      rw [dispatchOnce_approved true now h hst]
      simp
    have hg2 : get (storeUpdate (storeUpdate s { it with dispatchAttempts := it.dispatchAttempts + 1, updatedAt := now, version := it.version + 1 }) { it with status := Status.dispatched, dispatchAttempts := it.dispatchAttempts + 1, updatedAt := now, version := it.version + 2 }) id = some { it with status := Status.dispatched, dispatchAttempts := it.dispatchAttempts + 1, updatedAt := now, version := it.version + 2 } :=
      get_storeUpdate_self' _ (get_storeUpdate_self' _ h rfl) rfl
    have hr := runSignals_stuck rest now hg2 (by simp)
    refine ⟨?_, ?_, fun sig2 => runSignals_le_one s id now sig2⟩
    · simp only [runSignals, hd, hr]
      simp
    · simp only [runSignals, hd, hr]
      simp [hg2]

/-- Concrete instantiation of the C7 theorem: an approved item receiving
two duplicate success signals is published exactly once and ends
dispatched. -/
theorem dispatch_exactly_once_witness :
    (runSignals [itemApproved] 4 [true, true] 9).2 = 1 ∧
    (get (runSignals [itemApproved] 4 [true, true] 9).1 4).map
      ContentItem.status = some Status.dispatched ∧
    (∀ sig2, (runSignals [itemApproved] 4 sig2 9).2 ≤ 1) :=
  dispatch_exactly_once [itemApproved] 4 9 itemApproved [true, true] rfl rfl
    (by decide) (by decide)

/-- C8: the statuses rejected, dispatched and terminal failed (attempt
budget exhausted) are absorbing: from them no operation succeeds or alters
the store; and every successful operation moves the status only along the
section 4.2 transition graph, edits changing no status at all. -/
theorem status_transitions_follow_graph (s : List ContentItem)
    (id ev maxA now : Nat) (nc : String) (b : Bool) (it : ContentItem)
    (h : get s id = some it) :
    (∀ s' it', edit s id ev nc now = Except.ok s' → get s' id = some it' →
      it'.status = it.status) ∧
    (∀ s' it', approve s id ev now = Except.ok s' → get s' id = some it' →
      allowedTransition it.status it'.status) ∧
    (∀ s' it', reject s id ev now = Except.ok s' → get s' id = some it' →
      allowedTransition it.status it'.status) ∧
    (∀ s' it', promote s id now = Except.ok s' → get s' id = some it' →
      allowedTransition it.status it'.status) ∧
    (∀ s' it', retryDispatch s id maxA now = Except.ok s' →
      get s' id = some it' → allowedTransition it.status it'.status) ∧
    ((dispatchOnce s id b now).1 = s ∨
      (it.status = Status.approved ∧
        ∀ it', get (dispatchOnce s id b now).1 id = some it' →
          allowedTransition it.status it'.status)) ∧
    (terminal it maxA →
      (∀ ev2, edit s id ev2 nc now = Except.error StoreErr.IllegalState) ∧
      ¬ succeeds (approve s id ev now) ∧
      ¬ succeeds (reject s id ev now) ∧
      ¬ succeeds (promote s id now) ∧
      ¬ succeeds (retryDispatch s id maxA now) ∧
      dispatchOnce s id b now = (s, false)) := by
  refine ⟨?_, ?_, ?_, ?_, ?_, ?_, ?_⟩
  · intro s' it' hop hgi
    obtain ⟨it2, hg, he, hv, hs⟩ := edit_ok_char hop
    rw [h] at hg
    injection hg with hg
    subst hg hs
    rw [get_storeUpdate_self'
      { it with content := nc, updatedAt := now, version := ev + 1 } h rfl] at hgi
    injection hgi with hgi
    subst hgi
    rfl
  · intro s' it' hop hgi
    obtain ⟨it2, hg, hstP, hv, hs⟩ := approve_ok_char hop
    rw [h] at hg
    injection hg with hg
    subst hg hs
    rw [get_storeUpdate_self'
      { it with status := Status.approved, updatedAt := now, version := ev + 1 } h rfl] at hgi
    injection hgi with hgi
    subst hgi
    dsimp only
    unfold allowedTransition
    rw [hstP]
    decide
  · intro s' it' hop hgi
    obtain ⟨it2, hg, hstP, hv, hs⟩ := reject_ok_char hop
    rw [h] at hg
    injection hg with hg
    subst hg hs
    rw [get_storeUpdate_self'
      { it with status := Status.rejected, updatedAt := now, version := ev + 1 } h rfl] at hgi
    injection hgi with hgi
    subst hgi
    dsimp only
    unfold allowedTransition
    rw [hstP]
    decide
  · intro s' it' hop hgi
    obtain ⟨it2, hg, hstD, hs⟩ := promote_ok_char hop
    rw [h] at hg
    injection hg with hg
    subst hg hs
    rw [get_storeUpdate_self'
      { it with status := Status.pending_review, updatedAt := now, version := it.version + 1 } h rfl] at hgi
    injection hgi with hgi
    subst hgi
    dsimp only
    unfold allowedTransition
    rw [hstD]
    decide
  · intro s' it' hop hgi
    obtain ⟨it2, hg, hstF, hlt, hs⟩ := retry_ok_char hop
    rw [h] at hg
    injection hg with hg
    subst hg hs
    rw [get_storeUpdate_self'
      { it with status := Status.pending_review, updatedAt := now, version := it.version + 1 } h rfl] at hgi
    injection hgi with hgi
    subst hgi
    dsimp only
    unfold allowedTransition
    rw [hstF]
    decide
  · by_cases hst : it.status = Status.approved
    · right
      refine ⟨hst, ?_⟩
      intro it' hgi
      simp only [dispatchOnce_approved b now h hst] at hgi
      rw [get_storeUpdate_self'
        { it with status := if b then Status.dispatched else Status.failed, dispatchAttempts := it.dispatchAttempts + 1, updatedAt := now, version := it.version + 2 }
        (get_storeUpdate_self'
          { it with dispatchAttempts := it.dispatchAttempts + 1, updatedAt := now, version := it.version + 1 } h rfl) rfl] at hgi
      injection hgi with hgi
      subst hgi
      dsimp only
      unfold allowedTransition
      rw [hst]
      cases b <;> decide
    · left
      rw [dispatchOnce_stuck h hst]
  · intro ht
    have hedF : editable it.status = false := by
      rcases ht with h1 | h1 | ⟨h1, _⟩ <;> simp [editable, h1]
    have hnp : it.status ≠ Status.pending_review := by
      rcases ht with h1 | h1 | ⟨h1, _⟩ <;> simp [h1]
    have hnd : it.status ≠ Status.draft := by
      rcases ht with h1 | h1 | ⟨h1, _⟩ <;> simp [h1]
    have hnap : it.status ≠ Status.approved := by
      rcases ht with h1 | h1 | ⟨h1, _⟩ <;> simp [h1]
    have hnr : ¬ (it.status = Status.failed ∧ it.dispatchAttempts < maxA) := by
      rcases ht with h1 | h1 | ⟨h1, h2⟩ <;> simp [h1]
      omega
    refine ⟨fun ev2 => edit_illegal h (by simp [hedF]), ?_, ?_, ?_, ?_,
      dispatchOnce_stuck h hnap⟩
    · rintro ⟨s', hs⟩
      obtain ⟨it2, hg, hstP, _, _⟩ := approve_ok_char hs
      rw [h] at hg
      injection hg with hg
      subst hg
      exact hnp hstP
    · rintro ⟨s', hs⟩
      obtain ⟨it2, hg, hstP, _, _⟩ := reject_ok_char hs
      rw [h] at hg
      injection hg with hg
      subst hg
      exact hnp hstP
    · rintro ⟨s', hs⟩
      obtain ⟨it2, hg, hstD, _⟩ := promote_ok_char hs
      rw [h] at hg
      injection hg with hg
      subst hg
      exact hnd hstD
    · rintro ⟨s', hs⟩
      obtain ⟨it2, hg, hstF, hlt, _⟩ := retry_ok_char hs
      rw [h] at hg
      injection hg with hg
      subst hg
      exact hnr ⟨hstF, hlt⟩

/-- Concrete instantiation of the C8 theorem, absorbing part: on an item
dispatched at version 3 with one recorded attempt and budget 2, every
operation fails or leaves the store untouched. -/
theorem status_transitions_follow_graph_witness :
    (∀ ev2, edit [itemDispatched] 3 ev2 "z" 8 =
      Except.error StoreErr.IllegalState) ∧
    ¬ succeeds (approve [itemDispatched] 3 0 8) ∧
    ¬ succeeds (reject [itemDispatched] 3 0 8) ∧
    ¬ succeeds (promote [itemDispatched] 3 8) ∧
    ¬ succeeds (retryDispatch [itemDispatched] 3 2 8) ∧
    dispatchOnce [itemDispatched] 3 true 8 = ([itemDispatched], false) :=
  (status_transitions_follow_graph [itemDispatched] 3 0 2 8 "z" true
    itemDispatched rfl).2.2.2.2.2.2 (Or.inr (Or.inl rfl))

end AgenticFlow

/-- C2 (counterexample): the claim states that every edit request issued by
the client carries the item's expectedVersion alongside the new content; at
the concrete edited content "hi", the PUT bodies built by the handleSave
functions of ReplyReview and PostPreview contain no expectedVersion field at
all. -/
theorem save_body_no_expectedVersion :
    ("expectedVersion" ∉ (ReplyReview.handleSaveBody "hi").map Prod.fst) ∧
    ("expectedVersion" ∉ (PostPreview.handleSaveBody "hi").map Prod.fst) := by
  constructor <;> decide

/-- C2 (amended): every PUT body built by the clients' handleSave carries
exactly one field, content, holding the edited text; no expectedVersion
accompanies it, so client edits do not present an optimistic version check
token to the server. -/
theorem save_body_content_only (c : String) :
    (ReplyReview.handleSaveBody c).map Prod.fst = ["content"] ∧
    (PostPreview.handleSaveBody c).map Prod.fst = ["content"] ∧
    ReplyReview.handleSaveBody c = [("content", ReplyReview.Json.str c)] ∧
    PostPreview.handleSaveBody c = [("content", PostPreview.Json.str c)] :=
  ⟨rfl, rfl, rfl, rfl⟩

/-- C9 (counterexample): the claim states that the rendered output is the
sanitizer applied to the stored content, never the raw unescaped content; at
the concrete stored content below, containing a script element that no
allow-listed sanitizer may pass through, PostPreview's content pane is
exactly the raw content injected through dangerouslySetInnerHTML. -/
theorem postPreview_renders_raw_script :
    PostPreview.renderPostContent "<script>alert(1)</script>" =
      PostPreview.RenderedNode.rawHtml "<script>alert(1)</script>" := rfl

/-- C9 (amended): for every non-empty stored content, PostPreview injects
exactly the raw content into the page through dangerouslySetInnerHTML; no
sanitized, allow-listed rendering pipeline sits at the presentation
boundary. -/
theorem postPreview_renders_raw (c : String) (hc : c ≠ "") :
    PostPreview.renderPostContent c = PostPreview.RenderedNode.rawHtml c := by
  unfold PostPreview.renderPostContent
  rw [if_neg hc]

/-- Concrete instantiation of the amended C9 theorem at a markup body. -/
theorem postPreview_renders_raw_witness :
    PostPreview.renderPostContent "<b>bold</b>" =
      PostPreview.RenderedNode.rawHtml "<b>bold</b>" :=
  postPreview_renders_raw "<b>bold</b>" (by decide)

/-- C10: the replies-state update performed by a successful handleSave is a
frame-preserving content write: positionally, every reply keeps its id,
recipient and subject; a reply whose id differs from the edited id is kept
entirely unchanged; and a reply carrying the edited id has its content
replaced by the edited text. -/
theorem handleSave_frame (replies : List ReplyReview.Reply) (replyId : Nat)
    (c : String) :
    List.Forall₂ (fun r r' =>
      (r'.id = r.id ∧ r'.recipient = r.recipient ∧ r'.subject = r.subject) ∧
      (r.id ≠ replyId → r' = r) ∧
      (r.id = replyId → r'.content = c))
      replies (ReplyReview.handleSaveReplies replies replyId c) := by
  induction replies with
  | nil => exact List.Forall₂.nil
  | cons a l ih =>
    refine List.Forall₂.cons ?_ ih
    by_cases hid : a.id = replyId
    · simp only [ReplyReview.handleSaveReplies]
      simp [hid]
    · simp only [ReplyReview.handleSaveReplies]
      simp [hid]

/-- Concrete instantiation of the C10 theorem on a two-reply list where the
reply with identifier 1 is edited. -/
theorem handleSave_frame_witness :
    List.Forall₂ (fun r r' =>
      (r'.id = r.id ∧ r'.recipient = r.recipient ∧ r'.subject = r.subject) ∧
      (r.id ≠ 1 → r' = r) ∧
      (r.id = 1 → r'.content = "edited"))
      [ReplyReview.replySampleA, ReplyReview.replySampleB]
      (ReplyReview.handleSaveReplies
        [ReplyReview.replySampleA, ReplyReview.replySampleB] 1 "edited") :=
  handleSave_frame [ReplyReview.replySampleA, ReplyReview.replySampleB] 1
    "edited"

namespace AgenticFlow

theorem keyLtB_iff {a b : Key} :
    keyLtB a b = true ↔ (a.1 < b.1 ∨ (a.1 = b.1 ∧ a.2 < b.2)) := by
  simp [keyLtB, Bool.or_eq_true, Bool.and_eq_true, decide_eq_true_iff,
    beq_iff_eq]

theorem keyLeB_iff {a b : Key} :
    keyLeB a b = true ↔ (a.1 < b.1 ∨ (a.1 = b.1 ∧ a.2 ≤ b.2)) := by
  simp [keyLeB, Bool.or_eq_true, Bool.and_eq_true, decide_eq_true_iff,
    beq_iff_eq]

theorem keyLeB_of_keyLtB {a b : Key} (h : keyLtB a b = true) :
    keyLeB a b = true := by
  rw [keyLtB_iff] at h
  rw [keyLeB_iff]
  omega

theorem keyLtB_trans {a b c : Key} (h1 : keyLtB a b = true)
    (h2 : keyLtB b c = true) : keyLtB a c = true := by
  rw [keyLtB_iff] at h1 h2 ⊢
  omega

theorem keyLtB_of_le_of_lt {a b c : Key} (h1 : keyLeB a b = true)
    (h2 : keyLtB b c = true) : keyLtB a c = true := by
  rw [keyLeB_iff] at h1
  rw [keyLtB_iff] at h2 ⊢
  omega

theorem keyLtB_self_false (a : Key) : keyLtB a a = false := by
  rcases hb : keyLtB a a with _ | _
  · rfl
  · rw [keyLtB_iff] at hb
    omega

theorem itemLt_of_le_of_ne {a b : ContentItem} (hle : itemLe a b)
    (hne : keyOf a ≠ keyOf b) : itemLt a b := by
  unfold itemLe at hle
  unfold itemLt
  rw [keyLeB_iff] at hle
  rw [keyLtB_iff]
  simp only [ne_eq, Prod.ext_iff] at hne
  omega

theorem ne_of_itemLt {a b : ContentItem} (h : itemLt a b) :
    keyOf a ≠ keyOf b := by
  unfold itemLt at h
  rw [keyLtB_iff] at h
  simp only [ne_eq, Prod.ext_iff]
  omega

theorem sorted_strict_of_nodup {l : List ContentItem}
    (hs : List.Pairwise itemLe l) (hn : (l.map keyOf).Nodup) :
    List.Pairwise itemLt l := by
  have hkeys : List.Pairwise (fun a b : ContentItem => keyOf a ≠ keyOf b) l :=
    List.pairwise_map.mp hn
  exact (hs.and hkeys).imp (fun hab => itemLt_of_le_of_ne hab.1 hab.2)

theorem mem_afterCursor {s : List ContentItem} {cursor : Option Key}
    {x : ContentItem} :
    x ∈ afterCursor s cursor ↔ x ∈ s ∧ cursorLtB cursor (keyOf x) = true := by
  unfold afterCursor
  simp [List.mem_filter]

theorem afterCursor_pairwise_le (s : List ContentItem) (cursor : Option Key) :
    List.Pairwise itemLe (afterCursor s cursor) :=
  (List.sorted_insertionSort itemLe s).filter _

theorem afterCursor_pairwise_lt {s : List ContentItem} {cursor : Option Key}
    (hn : (s.map keyOf).Nodup) :
    List.Pairwise itemLt (afterCursor s cursor) := by
  apply sorted_strict_of_nodup (afterCursor_pairwise_le s cursor)
  have hperm : List.Perm ((List.insertionSort itemLe s).map keyOf)
      (s.map keyOf) :=
    (List.perm_insertionSort itemLe s).map keyOf
  have hsortn : ((List.insertionSort itemLe s).map keyOf).Nodup :=
    hperm.nodup_iff.mpr hn
  have hsub : List.Sublist ((afterCursor s cursor).map keyOf)
      ((List.insertionSort itemLe s).map keyOf) :=
    List.Sublist.map keyOf (List.filter_sublist _)
  exact List.Nodup.sublist hsub hsortn

theorem mem_pageItems {s : List ContentItem} {cursor : Option Key}
    {limit : Nat} {x : ContentItem} (hx : x ∈ pageItems s cursor limit) :
    x ∈ s ∧ cursorLtB cursor (keyOf x) = true :=
  mem_afterCursor.mp (List.take_subset _ _ hx)

theorem pageItems_pairwise {s : List ContentItem} {cursor : Option Key}
    {limit : Nat} (hn : (s.map keyOf).Nodup) :
    List.Pairwise itemLt (pageItems s cursor limit) :=
  List.Pairwise.sublist (List.take_sublist _ _) (afterCursor_pairwise_lt hn)

theorem nextCursor_none_complete {s : List ContentItem} {cursor : Option Key}
    {limit : Nat} {x : ContentItem} (hl : 0 < limit)
    (hnone : nextCursor s cursor limit = none) (hx : x ∈ s)
    (hxc : cursorLtB cursor (keyOf x) = true) :
    x ∈ pageItems s cursor limit := by
  unfold nextCursor at hnone
  by_cases hcmp : limit < (afterCursor s cursor).length
  · rw [if_pos hcmp] at hnone
    exfalso
    have hlen : (pageItems s cursor limit).length = limit := by
      unfold pageItems
      rw [List.length_take]
      omega
    rw [Option.map_eq_none', List.getLast?_eq_none_iff] at hnone
    rw [hnone] at hlen
    simp at hlen
    omega
  · rw [if_neg hcmp] at hnone
    unfold pageItems
    rw [List.take_of_length_le (Nat.le_of_not_lt hcmp)]
    exact mem_afterCursor.mpr ⟨hx, hxc⟩

theorem pairwise_le_getLast : ∀ {l : List ContentItem} {p : ContentItem},
    List.Pairwise itemLt l → l.getLast? = some p →
    ∀ a ∈ l, keyLeB (keyOf a) (keyOf p) = true := by
  intro l
  induction l with
  | nil => intro p _ hl; cases hl
  | cons x xs ih =>
    intro p hp hl a ha
    cases xs with
    | nil =>
      have hx : x = p := by simpa using hl
      rcases List.mem_singleton.mp ha with rfl
      rw [hx]
      rw [keyLeB_iff]
      omega
    | cons y ys =>
      rw [List.getLast?_cons_cons] at hl
      rcases List.mem_cons.mp ha with rfl | ha'
      · have hpmem : p ∈ y :: ys := List.mem_of_getLast?_eq_some hl
        exact keyLeB_of_keyLtB ((List.pairwise_cons.mp hp).1 p hpmem)
      · exact ih (List.pairwise_cons.mp hp).2 hl a ha'

theorem nextCursor_some_facts {s : List ContentItem} {cursor : Option Key}
    {limit : Nat} {c' : Key} (hn : (s.map keyOf).Nodup)
    (hsome : nextCursor s cursor limit = some c') :
    (∃ p ∈ pageItems s cursor limit, keyOf p = c') ∧
    (∀ a ∈ pageItems s cursor limit, keyLeB (keyOf a) c' = true) ∧
    (∀ x ∈ s, cursorLtB cursor (keyOf x) = true →
      x ∈ pageItems s cursor limit ∨ keyLtB c' (keyOf x) = true) := by
  unfold nextCursor at hsome
  by_cases hcmp : limit < (afterCursor s cursor).length
  · rw [if_pos hcmp] at hsome
    obtain ⟨p, hplast, hpc⟩ := Option.map_eq_some'.mp hsome
    have hpmem : p ∈ pageItems s cursor limit :=
      List.mem_of_getLast?_eq_some hplast
    refine ⟨⟨p, hpmem, hpc⟩, ?_, ?_⟩
    · intro a ha
      rw [← hpc]
      exact pairwise_le_getLast (pageItems_pairwise hn) hplast a ha
    · intro x hx hxc
      have hx_after : x ∈ afterCursor s cursor := mem_afterCursor.mpr ⟨hx, hxc⟩
      have hsplit : afterCursor s cursor =
          (afterCursor s cursor).take limit ++ (afterCursor s cursor).drop limit :=
        (List.take_append_drop limit (afterCursor s cursor)).symm
      rw [hsplit] at hx_after
      rcases List.mem_append.mp hx_after with hin | hdrop
      · exact Or.inl hin
      · right
        have hafter_pw : List.Pairwise itemLt
            ((afterCursor s cursor).take limit ++ (afterCursor s cursor).drop limit) := by
          rw [← hsplit]
          exact afterCursor_pairwise_lt hn
        have hlt := (List.pairwise_append.mp hafter_pw).2.2 p hpmem x hdrop
        rw [← hpc]
        exact hlt
  · rw [if_neg hcmp] at hsome
    cases hsome

theorem filter_length_lt {α : Type} {p q : α → Bool} {U : List α} {x : α}
    (himp : ∀ a, q a = true → p a = true) (hx : x ∈ U) (hpx : p x = true)
    (hqx : q x = false) : (U.filter q).length < (U.filter p).length := by
  have hsub : List.Sublist (U.filter q) (U.filter p) :=
    List.monotone_filter_right U himp
  rcases Nat.lt_or_ge (U.filter q).length (U.filter p).length with hlt | hge
  · exact hlt
  · exfalso
    have heq : U.filter q = U.filter p := hsub.eq_of_length_le hge
    have hxp : x ∈ U.filter p := List.mem_filter.mpr ⟨hx, hpx⟩
    rw [← heq] at hxp
    have hq := (List.mem_filter.mp hxp).2
    rw [hqx] at hq
    cases hq

theorem cursorLtB_trans {cursor : Option Key} {c' k : Key}
    (h1 : cursorLtB cursor c' = true) (h2 : keyLtB c' k = true) :
    cursorLtB cursor k = true := by
  cases cursor with
  | none => rfl
  | some c0 => exact keyLtB_trans h1 h2

theorem countBeyond_lt {U : List ContentItem} {cursor : Option Key} {c' : Key}
    {p : ContentItem} (hp : p ∈ U) (hpc : cursorLtB cursor (keyOf p) = true)
    (hpk : keyOf p = c') :
    countBeyond U (some c') < countBeyond U cursor := by
  unfold countBeyond
  apply filter_length_lt ?_ hp hpc ?_
  · intro a ha
    exact cursorLtB_trans (hpk ▸ hpc) ha
  · show keyLtB c' (keyOf p) = false
    rw [hpk]
    exact keyLtB_self_false c'

theorem countBeyond_none (U : List ContentItem) :
    countBeyond U none = U.length := by
  simp [countBeyond, cursorLtB]

theorem store_univ_eq (s : List ContentItem)
    (inserts : List (List ContentItem)) :
    (s ++ inserts.headD []) ++ inserts.tail.flatten = s ++ inserts.flatten := by
  cases inserts <;> simp

end AgenticFlow

namespace AgenticFlow

theorem paginateAll_sound (fuel : Nat) :
    ∀ (s : List ContentItem) (inserts : List (List ContentItem))
      (cursor : Option Key) (limit : Nat),
      ((s ++ inserts.flatten).map keyOf).Nodup →
      (∀ y ∈ paginateAll fuel s inserts cursor limit,
        y ∈ s ++ inserts.flatten ∧ cursorLtB cursor (keyOf y) = true) ∧
      List.Pairwise itemLt (paginateAll fuel s inserts cursor limit) := by
  induction fuel with
  | zero =>
    intro s inserts cursor limit _
    constructor
    · intro y hy
      simp [paginateAll] at hy
    · simp [paginateAll]
  | succ fuel ih =>
    intro s inserts cursor limit hn
    have hn_s : (s.map keyOf).Nodup := by
      have hsub : List.Sublist (s.map keyOf)
          ((s ++ inserts.flatten).map keyOf) :=
        List.Sublist.map keyOf (List.sublist_append_left s inserts.flatten)
      exact List.Nodup.sublist hsub hn
    cases hnext : nextCursor s cursor limit with
    | none =>
      have heq : paginateAll (Nat.succ fuel) s inserts cursor limit =
          pageItems s cursor limit := by
        simp [paginateAll, hnext]
      rw [heq]
      constructor
      · intro y hy
        exact ⟨List.mem_append_left _ (mem_pageItems hy).1, (mem_pageItems hy).2⟩
      · exact pageItems_pairwise hn_s
    | some c' =>
      have heq : paginateAll (Nat.succ fuel) s inserts cursor limit =
          pageItems s cursor limit ++
            paginateAll fuel (s ++ inserts.headD []) inserts.tail (some c')
              limit := by
        simp [paginateAll, hnext]
      have hn' : (((s ++ inserts.headD []) ++ inserts.tail.flatten).map
          keyOf).Nodup := by
        rw [store_univ_eq]
        exact hn
      obtain ⟨⟨p, hpmem, hpk⟩, hfle, _⟩ := nextCursor_some_facts hn_s hnext
      have hcc' : cursorLtB cursor c' = true := by
        rw [← hpk]
        exact (mem_pageItems hpmem).2
      obtain ⟨ihmem, ihpw⟩ :=
        ih (s ++ inserts.headD []) inserts.tail (some c') limit hn'
      rw [heq]
      constructor
      · intro y hy
        rcases List.mem_append.mp hy with hy1 | hy2
        · exact ⟨List.mem_append_left _ (mem_pageItems hy1).1,
            (mem_pageItems hy1).2⟩
        · obtain ⟨hmem, hcur⟩ := ihmem y hy2
          constructor
          · rw [← store_univ_eq s inserts]
            exact hmem
          · exact cursorLtB_trans hcc' hcur
      · rw [List.pairwise_append]
        refine ⟨pageItems_pairwise hn_s, ihpw, ?_⟩
        intro a ha b hb
        exact keyLtB_of_le_of_lt (hfle a ha) ((ihmem b hb).2)

theorem paginateAll_complete (fuel : Nat) :
    ∀ (s : List ContentItem) (inserts : List (List ContentItem))
      (cursor : Option Key) (limit : Nat),
      0 < limit →
      ((s ++ inserts.flatten).map keyOf).Nodup →
      countBeyond (s ++ inserts.flatten) cursor < fuel →
      ∀ x ∈ s, cursorLtB cursor (keyOf x) = true →
        x ∈ paginateAll fuel s inserts cursor limit := by
  induction fuel with
  | zero =>
    intro s inserts cursor limit _ _ hf
    exact absurd hf (Nat.not_lt_zero _)
  | succ fuel ih =>
    intro s inserts cursor limit hl hn hf x hx hxc
    have hn_s : (s.map keyOf).Nodup := by
      have hsub : List.Sublist (s.map keyOf)
          ((s ++ inserts.flatten).map keyOf) :=
        List.Sublist.map keyOf (List.sublist_append_left s inserts.flatten)
      exact List.Nodup.sublist hsub hn
    cases hnext : nextCursor s cursor limit with
    | none =>
      have heq : paginateAll (Nat.succ fuel) s inserts cursor limit =
          pageItems s cursor limit := by
        simp [paginateAll, hnext]
      rw [heq]
      exact nextCursor_none_complete hl hnext hx hxc
    | some c' =>
      have heq : paginateAll (Nat.succ fuel) s inserts cursor limit =
          pageItems s cursor limit ++
            paginateAll fuel (s ++ inserts.headD []) inserts.tail (some c')
              limit := by
        simp [paginateAll, hnext]
      rw [heq]
      obtain ⟨⟨p, hpmem, hpk⟩, _, hsplit⟩ := nextCursor_some_facts hn_s hnext
      rcases hsplit x hx hxc with hin | hbeyond
      · exact List.mem_append_left _ hin
      · apply List.mem_append_right
        apply ih (s ++ inserts.headD []) inserts.tail (some c') limit hl
        · rw [store_univ_eq]
          exact hn
        · rw [store_univ_eq]
          have hUp : p ∈ s ++ inserts.flatten :=
            List.mem_append_left _ (mem_pageItems hpmem).1
          have hdec := countBeyond_lt hUp (mem_pageItems hpmem).2 hpk
          omega
        · exact List.mem_append_left _ hx
        · exact hbeyond

end AgenticFlow

namespace AgenticFlow

/-- C3 (counterexample): the claim states that paginating from the start
and following nextCursor until null yields exactly the N items that existed
when pagination started, even under concurrent inserts.  Concretely: two
items exist (keys (0,1) and (2,2)); pagination starts with limit 1; after
the first page a third item with key (5,5) is inserted; the completed
traversal returns all three items, not exactly the two that existed at the
start. -/
theorem pagination_concurrent_insert_appears :
    paginateAll 4 [itemA, itemB] [[itemC]] none 1 = [itemA, itemB, itemC] ∧
    itemC ∉ [itemA, itemB] ∧
    paginateAll 4 [itemA, itemB] [[itemC]] none 1 ≠ [itemA, itemB] := by
  refine ⟨by decide, by decide, by decide⟩

/-- C3 (amended): over a store whose items — including concurrently
inserted ones — carry pairwise-distinct (createdAt, id) keys, paginating
from the start with any positive limit and following nextCursor until null
yields every item that existed when pagination started (completeness), with
strictly increasing keys (so each item appears exactly once, in the stable
(createdAt, id)-ascending order, and an item whose key sorts before an
already-issued cursor never appears in a later page), and every emitted
item is a stored or concurrently inserted item.  Concurrently inserted
items whose keys sort after the pagination frontier may additionally
appear, so the traversal need not return exactly the N original items. -/
theorem pagination_traversal (s0 : List ContentItem)
    (inserts : List (List ContentItem)) (limit : Nat) (hl : 0 < limit)
    (hn : ((s0 ++ inserts.flatten).map keyOf).Nodup) :
    (∀ x ∈ s0, x ∈ paginateAll ((s0 ++ inserts.flatten).length + 1) s0
      inserts none limit) ∧
    List.Pairwise itemLt (paginateAll ((s0 ++ inserts.flatten).length + 1)
      s0 inserts none limit) ∧
    (∀ y ∈ paginateAll ((s0 ++ inserts.flatten).length + 1) s0 inserts none
      limit, y ∈ s0 ++ inserts.flatten) ∧
    ((paginateAll ((s0 ++ inserts.flatten).length + 1) s0 inserts none
      limit).map keyOf).Nodup := by
  have hs := paginateAll_sound ((s0 ++ inserts.flatten).length + 1) s0
    inserts none limit hn
  refine ⟨?_, hs.2, fun y hy => (hs.1 y hy).1, ?_⟩
  · intro x hx
    exact paginateAll_complete ((s0 ++ inserts.flatten).length + 1) s0
      inserts none limit hl hn
      (by rw [countBeyond_none]; omega) x hx rfl
  · exact List.pairwise_map.mpr (hs.2.imp (fun h => ne_of_itemLt h))

/-- Concrete instantiation of the amended C3 theorem on the counterexample
scenario: both original items appear, the output is strictly key-ordered,
and every output item is a stored or inserted item. -/
theorem pagination_traversal_witness :
    (∀ x ∈ [itemA, itemB],
      x ∈ paginateAll ((([itemA, itemB] ++ [[itemC]].flatten).length + 1))
        [itemA, itemB] [[itemC]] none 1) ∧
    List.Pairwise itemLt
      (paginateAll ((([itemA, itemB] ++ [[itemC]].flatten).length + 1))
        [itemA, itemB] [[itemC]] none 1) ∧
    (∀ y ∈ paginateAll ((([itemA, itemB] ++ [[itemC]].flatten).length + 1))
        [itemA, itemB] [[itemC]] none 1, y ∈ [itemA, itemB] ++ [[itemC]].flatten) ∧
    ((paginateAll ((([itemA, itemB] ++ [[itemC]].flatten).length + 1))
        [itemA, itemB] [[itemC]] none 1).map keyOf).Nodup :=
  pagination_traversal [itemA, itemB] [[itemC]] 1 (by decide) (by decide)

end AgenticFlow
